import Mathlib

/-
Verification development for the concurrency-demo repository
(src/main.py and src/examples/{asynchronism,concurrency,parallelism,
semaphore,workerpool}.py).

Each Python demo is shallowly embedded as Lean data and executable
functions, and the interleaving of threads, processes or pool workers is
modelled as an explicit step function driven by a schedule (a list of
scheduling choices).  Quantifying a property over all schedules expresses
that it holds for every possible interleaving; a concrete schedule is a
single possible execution.
-/

/-- Outcome of one work item, as the specification describes it: a tagged
union of a success value or a failure detail. -/
inductive TaskResult
| success (value : Nat)
| failure (detail : String)
deriving DecidableEq

namespace SemDemo

/-
Model of src/examples/semaphore.py.

run_semaphore_example (lines 69-80) creates Semaphore(4), builds 20 faker
ip strings, starts one thread per ip running get_address_info, joins them
all, and prints the shared list valid_ips.

get_address_info (lines 37-48) runs, per thread:
  try:
    result = IPWhois(address).lookup_whois()   -- external call
    if result is None: return                  -- leaves no trace
    with semaphore:                            -- acquire one of 4 permits
      print acquiring-log
      valid_ips.append((address, result))      -- shared-list append
      sleep(3)
    print releasing-log                        -- after the permit release
  except Exception: print exception-log

The external lookup_whois call is the only fallible step; its three
possible outcomes are represented by LookupOutcome.
-/

/-- Result of the external IPWhois lookup for one address: a non-None
result, a None result, or a raised exception. -/
inductive LookupOutcome
| ok
| nores
| err
deriving DecidableEq

/-- The atomic steps a get_address_info thread can take. -/
inductive SemInstr
| lookup
| acquire
| logAcquire
| appendIp
| sleep
| release
| logRelease
| logException
deriving DecidableEq

/-- The straight-line program one thread executes in get_address_info,
as a function of its lookup outcome.  A None result returns before the
with-block; an exception jumps to the except handler. -/
def get_address_info : LookupOutcome → List SemInstr
| .ok => [.lookup, .acquire, .logAcquire, .appendIp, .sleep, .release, .logRelease]
| .nores => [.lookup]
| .err => [.lookup, .logException]

/-- What the demo reports for one item: the ok path ends in the releasing
log (a success), the exception path ends in the exception log (a failure),
and the None path produces no report at all. -/
inductive SemReport
| succeeded
| failed
| noResult
deriving DecidableEq

/-- Classification of one thread of the semaphore demo by its lookup
outcome. -/
def semReport : LookupOutcome → SemReport
| .ok => .succeeded
| .nores => .noResult
| .err => .failed

/-- Interleaved state of run_semaphore_example: the semaphore counter, the
shared valid_ips list (recorded as the appending thread index), the order
in which threads acquired a permit, and each thread with its remaining
program. -/
structure SemState where
sem : Nat
validIps : List Nat
admitted : List Nat
threads : List (LookupOutcome × List SemInstr)
deriving DecidableEq

/-- Execute one atomic instruction of thread t.  acquire blocks (is a
no-op here) while the semaphore counter is zero; release increments it;
appendIp appends to the shared list. -/
def execInstr (s : SemState) (t : Nat) (o : LookupOutcome) (i : SemInstr)
    (rest : List SemInstr) : SemState :=
match i with
| .acquire =>
  if 0 < s.sem then
    { s with sem := s.sem - 1, admitted := s.admitted ++ [t],
             threads := s.threads.set t (o, rest) }
  else s
| .release => { s with sem := s.sem + 1, threads := s.threads.set t (o, rest) }
| .appendIp => { s with validIps := s.validIps ++ [t],
                        threads := s.threads.set t (o, rest) }
| _ => { s with threads := s.threads.set t (o, rest) }

/-- One scheduler step: let thread t run its next instruction, if any. -/
def semStep (s : SemState) (t : Nat) : SemState :=
match s.threads[t]? with
| some (o, i :: rest) => execInstr s t o i rest
| _ => s

/-- Initial state of run_semaphore_example with semaphore value K and one
thread per lookup outcome: Semaphore(K), empty shared list, no thread has
run yet. -/
def semInit (K : Nat) (outs : List LookupOutcome) : SemState :=
⟨K, [], [], outs.map (fun o => (o, get_address_info o))⟩

/-- Run the demo under a schedule: at each step the named thread executes
its next instruction. -/
def semRun (K : Nat) (outs : List LookupOutcome) (sched : List Nat) : SemState :=
sched.foldl semStep (semInit K outs)

/-- A thread currently holds one of the semaphore permits exactly when its
remaining program still contains the release but no longer contains the
acquire. -/
def holding (rem : List SemInstr) : Bool :=
rem.contains .release && !(rem.contains .acquire)

/-- Generic sum of a Nat-valued weight over a list. -/
def sumBy (g : α → Nat) : List α → Nat
| [] => 0
| a :: rest => g a + sumBy g rest

/-- Permit-holding weight of one thread. -/
def holdB (th : LookupOutcome × List SemInstr) : Nat :=
if holding th.2 then 1 else 0

/-- Number of threads currently holding a permit. -/
def holders (l : List (LookupOutcome × List SemInstr)) : Nat :=
sumBy holdB l

/-- Weight 1 for a thread that has already performed its shared-list
append. -/
def appB (th : LookupOutcome × List SemInstr) : Nat :=
if (get_address_info th.1).contains .appendIp && !(th.2.contains .appendIp) then 1 else 0

/-- Number of threads that have already appended to the shared list. -/
def appCount (l : List (LookupOutcome × List SemInstr)) : Nat :=
sumBy appB l

/-- Every thread has run its whole program. -/
def semComplete (s : SemState) : Prop :=
∀ th ∈ s.threads, th.2 = []

instance (s : SemState) : Decidable (semComplete s) := by
unfold semComplete
infer_instance

/-- The instructions of get_address_info that execute strictly inside the
with-semaphore block: everything after the acquire and before the
release. -/
def guardedRegion : List SemInstr :=
(((get_address_info .ok).dropWhile (fun i => i != SemInstr.acquire)).drop 1).takeWhile
  (fun i => i != SemInstr.release)

/-- The semaphore value in run_semaphore_example, line 70: Semaphore(4). -/
def semaphoreDemoLimit : Nat := 4

/-- The number of faker ips in run_semaphore_example, line 71: range(20). -/
def semaphoreDemoItemCount : Nat := 20

/-- Structural facts about every suffix of a get_address_info program,
used when one scheduler step consumes the head instruction. -/
def SuffixFact (rem : List SemInstr) : Prop :=
(rem.head? = some .acquire → holding rem = false ∧ holding rem.tail = true) ∧
(rem.head? = some .release → holding rem = true ∧ holding rem.tail = false) ∧
(rem ≠ [] → rem.head? ≠ some .acquire → rem.head? ≠ some .release →
  holding rem.tail = holding rem) ∧
(rem.head? = some .appendIp → holding rem = true ∧ rem.tail.contains .appendIp = false) ∧
(rem.head? ≠ some .appendIp → rem ≠ [] →
  rem.tail.contains .appendIp = rem.contains .appendIp)

/-- Invariant of the semaphore demo, preserved by every scheduler step:
each thread is somewhere in its own program, the thread outcomes are
fixed, permits plus holders add up to K, the shared-list length counts the
threads that appended, and only threads whose program acquires (resp.
appends) ever show up in the admission order (resp. the shared list). -/
structure SemInv (K : Nat) (outs : List LookupOutcome) (s : SemState) : Prop where
wf : ∀ th ∈ s.threads, th.2 <:+ get_address_info th.1
fst_eq : s.threads.map Prod.fst = outs
sem_inv : s.sem + holders s.threads = K
ips_count : s.validIps.length = appCount s.threads
admitted_ok : ∀ t ∈ s.admitted, ∃ o, outs[t]? = some o ∧
  SemInstr.acquire ∈ get_address_info o
ips_ok : ∀ t ∈ s.validIps, ∃ o, outs[t]? = some o ∧
  SemInstr.appendIp ∈ get_address_info o

end SemDemo

/-- FIFO admission: at every instant the sequence of already-admitted item
indices is exactly the first items in submission order. -/
def fifoAdmission (l : List Nat) : Prop :=
l = List.range l.length

instance (l : List Nat) : Decidable (fifoAdmission l) := by
unfold fifoAdmission
infer_instance

namespace PoolDemo

/-
Model of src/examples/workerpool.py.

run_workerpool_tasks (lines 61-67) runs pool.map(train_model, items) on a
Pool(3): the items are put on an ordered task queue in submission order,
each of the 3 workers repeatedly takes the first queued item, runs the
task on it, and deposits the result slot keyed by the item index; map
returns the results re-assembled in submission order.  The task function
is abstracted as f : item index → TaskResult.
-/

/-- A scheduler event of the pool: hand the first queued item to a free
worker, or let the worker running item i finish. -/
inductive PoolCmd
| assign
| finish (i : Nat)
deriving DecidableEq

/-- State of the pool run: not-yet-started items in submission order, item
indices currently being executed by workers, the admission order, and the
finished results in completion order. -/
structure PoolState where
queue : List Nat
running : List Nat
admitted : List Nat
results : List (Nat × TaskResult)
deriving DecidableEq

/-- One pool scheduler step.  Admission takes the head of the queue and
only when fewer than K workers are busy; finishing records (i, f i). -/
def poolStep (K : Nat) (f : Nat → TaskResult) (s : PoolState) : PoolCmd → PoolState
| .assign =>
  match s.queue with
  | [] => s
  | i :: rest =>
    if s.running.length < K then
      { s with queue := rest, running := s.running ++ [i],
               admitted := s.admitted ++ [i] }
    else s
| .finish i =>
  if i ∈ s.running then
    { s with running := s.running.erase i, results := s.results ++ [(i, f i)] }
  else s

/-- Initial pool state for N submitted items. -/
def poolInit (N : Nat) : PoolState :=
⟨List.range N, [], [], []⟩

/-- Run the pool under a schedule of admissions and completions. -/
def poolRun (K : Nat) (f : Nat → TaskResult) (N : Nat) (sched : List PoolCmd) : PoolState :=
sched.foldl (poolStep K f) (poolInit N)

/-- The run is over: nothing queued and nothing running. -/
def poolComplete (s : PoolState) : Prop :=
s.queue = [] ∧ s.running = []

instance (s : PoolState) : Decidable (poolComplete s) := by
unfold poolComplete
infer_instance

/-- The result for item i, read back from the completion-ordered results,
as pool.map re-assembles them by submission index. -/
def resultFor (s : PoolState) (i : Nat) : Option TaskResult :=
(s.results.find? (fun p => p.1 == i)).map Prod.snd

/-- The pool size in run_workerpool_tasks, line 62: Pool(3). -/
def workerPoolDemoLimit : Nat := 3

/-- The items of run_workerpool_tasks, line 63: list(range(100, 200, 10)). -/
def workerPoolDemoItems : List Nat :=
(List.range 10).map (fun i => 100 + 10 * i)

/-- Invariant of the pool run: the queued, running and finished item
indices are a permutation of the submitted ones, the admitted prefix and
the queue cut the submission order in two, at most K items run at once,
and every recorded result is the task output for its item. -/
structure PoolInv (K : Nat) (f : Nat → TaskResult) (N : Nat) (s : PoolState) : Prop where
perm : List.Perm (s.queue ++ s.running ++ s.results.map Prod.fst) (List.range N)
fifo : s.admitted ++ s.queue = List.range N
bound : s.running.length ≤ K
results_ok : ∀ p ∈ s.results, p.2 = f p.1

end PoolDemo

namespace ParDemo

/-
Model of src/examples/parallelism.py.

task (lines 16-57) downloads an image, checks the content type, resizes
and saves it, returning (True, size); any exception, including the
deliberately raised not-an-allowed-extension one, is caught inside the
same function and turned into (False, 0).  run_parallel_taks (lines
60-94) starts one independent process per url and joins them all, so each
item computes its own result unaffected by the others.
-/

/-- What the external download and image pipeline does for one url:
succeeds with a saved file of some size, hits a disallowed content type
(which task raises and then catches itself), or raises any other
exception. -/
inductive ParOutcome
| imageOk (size : Nat)
| notAllowed
| raises
deriving DecidableEq

/-- The per-process task function: its try block returns (True, size) and
its except block converts every raised failure into (False, 0). -/
def task : ParOutcome → Bool × Nat
| .imageOk size => (true, size)
| .notAllowed => (false, 0)
| .raises => (false, 0)

/-- One process per item, all independent: the vector of per-process
results of run_parallel_taks. -/
def run_parallel_taks (outs : List ParOutcome) : List (Bool × Nat) :=
outs.map task

end ParDemo

namespace AsyncDemo

/-
Model of src/examples/asynchronism.py, lines 112-135 (download_pdfs).

download_pdfs loops over the url list awaiting download_file for each;
the whole loop body sits inside one try, and the except handler prints
the error.  download_file itself either saves the pdf, returns early on a
non-pdf content type, or raises (e.g. a network error); a raise aborts
the loop and lands in the handler.
-/

/-- What download_file does for one url: saves the pdf, returns early
because the content type is not application/pdf, or raises. -/
inductive PdfOutcome
| pdfOk
| notPdf
| raises
deriving DecidableEq

/-- The enumerate loop of download_pdfs: item n is attempted; if it
raises, the loop stops (the remaining urls are never attempted) and the
exception is caught by the handler, recorded as the Bool. -/
def download_pdfs_loop : Nat → List PdfOutcome → List (Nat × PdfOutcome) × Bool
| _, [] => ([], false)
| n, o :: rest =>
  if o = .raises then ([(n, o)], true)
  else
    let r := download_pdfs_loop (n + 1) rest
    ((n, o) :: r.1, r.2)

/-- download_pdfs: the loop from index 0, with the except handler
swallowing any raised error (so the coroutine always returns normally).
The first component lists the attempted items in order, the second
records whether the handler ran. -/
def download_pdfs (outs : List PdfOutcome) : List (Nat × PdfOutcome) × Bool :=
download_pdfs_loop 0 outs

/-- How many items the loop attempts: everything up to and including the
first raising item, or all of them. -/
def attemptedCount : List PdfOutcome → Nat
| [] => 0
| o :: rest => if o = .raises then 1 else 1 + attemptedCount rest

end AsyncDemo

namespace MainDemo

/-
Model of src/main.py as the ordered list of observable events main
produces: printed lines, demo invocations, and (had there been any)
sleeps.  Note that main.py imports sleep from time but never calls it:
wait_for only prints its countdown.
-/

/-- The five demo entry points, in the order main.py imports and calls
them. -/
inductive Demo
| async
| concurrency
| parallelism
| semaphore
| workerpool
deriving DecidableEq

/-- An observable event of the driver: a printed line, a demo run to
completion, or a real time delay. -/
inductive Ev
| msg (s : String)
| runDemo (d : Demo)
| sleepFor (n : Nat)
deriving DecidableEq

/-- The prints of the while loop of wait_for: n..., n-1..., ..., 0... . -/
def countdown : Nat → List Ev
| 0 => [.msg ("0...")]
| n + 1 => .msg (toString (n + 1) ++ "...") :: countdown n

/-- wait_for (main.py lines 12-17): prints the header, the countdown and
the footer.  It contains no sleep call. -/
def wait_for (n : Nat) : List Ev :=
.msg ("Next example will run in...") :: countdown n ++ [.msg ("Now!")]

/-- The event trace of main (main.py lines 20-39). -/
def main : List Ev :=
[.msg ("Running async tasks..."), .runDemo .async, .msg ("Async tasks completed!")]
  ++ wait_for 5
  ++ [.msg ("Running concurrent tasks..."), .runDemo .concurrency,
      .msg ("Concurrent tasks completed!")]
  ++ wait_for 5
  ++ [.msg ("Running parallel tasks..."), .runDemo .parallelism,
      .msg ("Parallel tasks completed!")]
  ++ wait_for 5
  ++ [.msg ("Running semaphore tasks..."), .runDemo .semaphore,
      .msg ("Semaphore tasks completed!")]
  ++ wait_for 5
  ++ [.msg ("Running workerpool tasks..."), .runDemo .workerpool,
      .msg ("Workerpool tasks completed!")]

/-- Selects the time-delay events. -/
def isSleep : Ev → Bool
| .sleepFor _ => true
| _ => false

/-- Extracts the demo of a demo-invocation event. -/
def demoOf : Ev → Option Demo
| .runDemo d => some d
| _ => none

end MainDemo

/-- The error the synthesized pool raises on invalid construction. -/
inductive PoolError
| configurationError
deriving DecidableEq

/-- Modelled from the spec: the repository only ever constructs its pools
with the literal limits Semaphore(4) and Pool(3); the construction-time
validation of the synthesized BoundedWorkPool ("Fails with
ConfigurationError if K <= 0", raised before any task starts) exists in
the spec only.  new validates the limit before any run state exists. -/
def BoundedWorkPool.new (K : Int) : Except PoolError Nat :=
if K ≤ 0 then .error .configurationError else .ok K.toNat

/-- Modelled from the spec: the caller-visible run surface.  Construction
is validated first; a validated pool then executes the schedule, and the
per-item task outcomes are already data (TaskResult), so nothing after
construction can raise. -/
def BoundedWorkPool.runChecked (K : Int) (f : Nat → TaskResult) (N : Nat)
    (sched : List PoolDemo.PoolCmd) : Except PoolError PoolDemo.PoolState :=
match BoundedWorkPool.new K with
| .error e => .error e
| .ok k => .ok (PoolDemo.poolRun k f N sched)

/-- A concrete task function used to instantiate witnesses. -/
def demoTask : Nat → TaskResult :=
fun i => TaskResult.success i

/-- A pool schedule that completes two items one after the other. -/
def poolSchedA : List PoolDemo.PoolCmd :=
[.assign, .finish 0, .assign, .finish 1]

/-- A pool schedule that completes a single item. -/
def poolSchedB : List PoolDemo.PoolCmd :=
[.assign, .finish 0]

/-- Concrete lookup outcomes for a three-thread semaphore run. -/
def semOutsA : List SemDemo.LookupOutcome :=
[.ok, .nores, .err]

/-- A schedule that runs the three semOutsA threads to completion. -/
def semSchedA : List Nat :=
[0, 0, 0, 0, 0, 0, 0, 1, 2, 2]

/-! ### Generic list helpers -/

theorem sumBy_set (g : α → Nat) :
    ∀ (l : List α) (t : Nat) (a b : α), l[t]? = some b →
      SemDemo.sumBy g (l.set t a) + g b = SemDemo.sumBy g l + g a := by
intro l
induction l with
| nil => intro t a b hb; simp at hb
| cons x xs ih =>
  intro t a b hb
  cases t with
  | zero =>
    simp at hb
    subst hb
    simp [List.set, SemDemo.sumBy]
    omega
  | succ n =>
    simp at hb
    have := ih n a b hb
    simp [List.set, SemDemo.sumBy]
    omega

theorem sumBy_eq_zero (g : α → Nat) :
    ∀ (l : List α), (∀ a ∈ l, g a = 0) → SemDemo.sumBy g l = 0 := by
intro l
induction l with
| nil => intro; rfl
| cons x xs ih =>
  intro hz
  have hx : g x = 0 := hz x (List.mem_cons_self x xs)
  have hxs : SemDemo.sumBy g xs = 0 := ih (fun a ha => hz a (List.mem_cons_of_mem x ha))
  simp [SemDemo.sumBy, hx, hxs]

theorem set_of_getElem? : ∀ (l : List α) (t : Nat) (a : α), l[t]? = some a → l.set t a = l := by
intro l
induction l with
| nil => intro t a h; simp at h
| cons x xs ih =>
  intro t a h
  cases t with
  | zero => simp at h; subst h; simp [List.set]
  | succ n =>
    simp at h
    simp [List.set, ih n a h]

namespace SemDemo

/-! ### Invariant machinery of the semaphore demo -/

theorem semStep_eq_of_instr (s : SemState) (t : Nat) (o : LookupOutcome) (i : SemInstr)
    (rest : List SemInstr) (h : s.threads[t]? = some (o, i :: rest)) :
    semStep s t = execInstr s t o i rest := by
unfold semStep
rw [h]

theorem semStep_eq_of_done (s : SemState) (t : Nat) (o : LookupOutcome)
    (h : s.threads[t]? = some (o, [])) : semStep s t = s := by
unfold semStep
rw [h]

theorem semStep_eq_of_oob (s : SemState) (t : Nat)
    (h : s.threads[t]? = none) : semStep s t = s := by
unfold semStep
rw [h]

instance (rem : List SemInstr) : Decidable (SuffixFact rem) := by
unfold SuffixFact
infer_instance

theorem suffixFact_of_suffix (o : LookupOutcome) (rem : List SemInstr)
    (hs : rem <:+ get_address_info o) : SuffixFact rem := by
have hmem : rem ∈ (get_address_info o).tails := (List.mem_tails rem _).mpr hs
cases o with
| ok => exact (by decide : ∀ r ∈ (get_address_info .ok).tails, SuffixFact r) rem hmem
| nores => exact (by decide : ∀ r ∈ (get_address_info .nores).tails, SuffixFact r) rem hmem
| err => exact (by decide : ∀ r ∈ (get_address_info .err).tails, SuffixFact r) rem hmem

theorem holding_full (o : LookupOutcome) : holding (get_address_info o) = false := by
cases o <;> decide

theorem appB_full (o : LookupOutcome) : appB (o, get_address_info o) = 0 := by
cases o <;> decide

theorem semInv_init (K : Nat) (outs : List LookupOutcome) : SemInv K outs (semInit K outs) := by
constructor
· intro th hth
  rcases List.mem_map.mp hth with ⟨o, _, rfl⟩
  exact List.suffix_refl _
· show List.map Prod.fst (outs.map fun o => (o, get_address_info o)) = outs
  rw [List.map_map]
  have hcomp : (Prod.fst ∘ fun o : LookupOutcome => (o, get_address_info o)) = id := rfl
  rw [hcomp, List.map_id]
· have h0 : holders ((semInit K outs).threads) = 0 := by
    apply sumBy_eq_zero
    intro a ha
    rcases List.mem_map.mp ha with ⟨o, _, rfl⟩
    simp [holdB, holding_full]
  simpa [semInit] using (by simp [semInit] at h0 ⊢; omega : K + holders ((semInit K outs).threads) = K)
· have h0 : appCount ((semInit K outs).threads) = 0 := by
    apply sumBy_eq_zero
    intro a ha
    rcases List.mem_map.mp ha with ⟨o, _, rfl⟩
    exact appB_full o
  simp [semInit] at h0 ⊢
  exact h0.symm
· intro t ht; simp [semInit] at ht
· intro t ht; simp [semInit] at ht

theorem semInv_neutral (K : Nat) (outs : List LookupOutcome) (s : SemState) (t : Nat)
    (o : LookupOutcome) (i : SemInstr) (rest : List SemInstr)
    (h : SemInv K outs s) (hh : s.threads[t]? = some (o, i :: rest))
    (hacq : i ≠ .acquire) (hrel : i ≠ .release) (happ : i ≠ .appendIp) :
    SemInv K outs { s with threads := s.threads.set t (o, rest) } := by
have hmem : (o, i :: rest) ∈ s.threads := List.getElem?_mem hh
have hsuf : (i :: rest) <:+ get_address_info o := h.wf _ hmem
have hrest : rest <:+ get_address_info o := (List.suffix_cons i rest).trans hsuf
have hfact := suffixFact_of_suffix o (i :: rest) hsuf
have houts : outs[t]? = some o := by
  have hm := List.getElem?_map Prod.fst s.threads t
  rw [h.fst_eq] at hm
  rw [hm, hh]
  rfl
have hhold_eq : holding rest = holding (i :: rest) := by
  have h3 := hfact.2.2.1 (by simp) (by simp [hacq]) (by simp [hrel])
  simpa using h3
have hcont_eq : rest.contains SemInstr.appendIp = (i :: rest).contains SemInstr.appendIp := by
  have h5 := hfact.2.2.2.2 (by simp [happ]) (by simp)
  simpa using h5
have hholdsum := sumBy_set holdB s.threads t (o, rest) (o, i :: rest) hh
have happsum := sumBy_set appB s.threads t (o, rest) (o, i :: rest) hh
have hholdB_eq : holdB (o, rest) = holdB (o, i :: rest) := by
  simp [holdB, hhold_eq]
have happB_eq : appB (o, rest) = appB (o, i :: rest) := by
  show (if (get_address_info o).contains SemInstr.appendIp && !(rest.contains SemInstr.appendIp)
      then 1 else 0) =
    (if (get_address_info o).contains SemInstr.appendIp
        && !((i :: rest).contains SemInstr.appendIp) then 1 else 0)
  rw [hcont_eq]
constructor
· intro th hth
  rcases List.mem_or_eq_of_mem_set hth with h1 | h2
  · exact h.wf th h1
  · rw [h2]; exact hrest
· show (s.threads.set t (o, rest)).map Prod.fst = outs
  rw [List.map_set, h.fst_eq]
  exact set_of_getElem? outs t o houts
· show s.sem + holders (s.threads.set t (o, rest)) = K
  have hsi := h.sem_inv
  rw [hholdB_eq] at hholdsum
  unfold holders at *
  omega
· show s.validIps.length = appCount (s.threads.set t (o, rest))
  have hic := h.ips_count
  rw [happB_eq] at happsum
  unfold appCount at *
  omega
· intro t' ht'
  exact h.admitted_ok t' ht'
· intro t' ht'
  exact h.ips_ok t' ht'

theorem semInv_step (K : Nat) (outs : List LookupOutcome) (s : SemState) (t : Nat)
    (h : SemInv K outs s) : SemInv K outs (semStep s t) := by
cases hh : s.threads[t]? with
| none =>
  rw [semStep_eq_of_oob s t hh]
  exact h
| some th =>
  obtain ⟨o, rem⟩ := th
  cases rem with
  | nil =>
    rw [semStep_eq_of_done s t o hh]
    exact h
  | cons i rest =>
    rw [semStep_eq_of_instr s t o i rest hh]
    have hmem : (o, i :: rest) ∈ s.threads := List.getElem?_mem hh
    have hsuf : (i :: rest) <:+ get_address_info o := h.wf _ hmem
    have hrest : rest <:+ get_address_info o := (List.suffix_cons i rest).trans hsuf
    have hfact := suffixFact_of_suffix o (i :: rest) hsuf
    have houts : outs[t]? = some o := by
      have hm := List.getElem?_map Prod.fst s.threads t
      rw [h.fst_eq] at hm
      rw [hm, hh]
      rfl
    have hwf' : ∀ th ∈ s.threads.set t (o, rest), th.2 <:+ get_address_info th.1 := by
      intro th hth
      rcases List.mem_or_eq_of_mem_set hth with h1 | h2
      · exact h.wf th h1
      · rw [h2]; exact hrest
    have hfst' : (s.threads.set t (o, rest)).map Prod.fst = outs := by
      rw [List.map_set, h.fst_eq]
      exact set_of_getElem? outs t o houts
    have hholdsum := sumBy_set holdB s.threads t (o, rest) (o, i :: rest) hh
    have happsum := sumBy_set appB s.threads t (o, rest) (o, i :: rest) hh
    cases i with
    | lookup =>
      exact semInv_neutral K outs s t o .lookup rest h hh
        (by decide) (by decide) (by decide)
    | logAcquire =>
      exact semInv_neutral K outs s t o .logAcquire rest h hh
        (by decide) (by decide) (by decide)
    | sleep =>
      exact semInv_neutral K outs s t o .sleep rest h hh
        (by decide) (by decide) (by decide)
    | logRelease =>
      exact semInv_neutral K outs s t o .logRelease rest h hh
        (by decide) (by decide) (by decide)
    | logException =>
      exact semInv_neutral K outs s t o .logException rest h hh
        (by decide) (by decide) (by decide)
    | acquire =>
      by_cases hsem : 0 < s.sem
      · have hstep : execInstr s t o .acquire rest =
            { s with sem := s.sem - 1, admitted := s.admitted ++ [t],
                     threads := s.threads.set t (o, rest) } := by
          simp [execInstr, hsem]
        rw [hstep]
        have hfa := hfact.1 rfl
        have hold_old : holdB (o, SemInstr.acquire :: rest) = 0 := by
          simp [holdB, hfa.1]
        have hold_new : holdB (o, rest) = 1 := by
          have hx : holding rest = true := by simpa using hfa.2
          simp [holdB, hx]
        have happB_eq : appB (o, rest) = appB (o, SemInstr.acquire :: rest) := by
          have h5 := hfact.2.2.2.2 (by simp) (by simp)
          simp at h5
          simp [appB, h5]
        constructor
        · exact hwf'
        · exact hfst'
        · show s.sem - 1 + holders (s.threads.set t (o, rest)) = K
          have hsi := h.sem_inv
          rw [hold_old, hold_new] at hholdsum
          unfold holders at *
          omega
        · show s.validIps.length = appCount (s.threads.set t (o, rest))
          have hic := h.ips_count
          rw [happB_eq] at happsum
          unfold appCount at *
          omega
        · intro t' ht'
          rcases List.mem_append.mp ht' with h1 | h2
          · exact h.admitted_ok t' h1
          · have : t' = t := List.mem_singleton.mp h2
            rw [this]
            exact ⟨o, houts, hsuf.subset (List.mem_cons_self _ _)⟩
        · intro t' ht'
          exact h.ips_ok t' ht'
      · have hstep : execInstr s t o .acquire rest = s := by
          simp [execInstr, hsem]
        rw [hstep]
        exact h
    | release =>
      have hstep : execInstr s t o .release rest =
          { s with sem := s.sem + 1, threads := s.threads.set t (o, rest) } := by
        simp [execInstr]
      rw [hstep]
      have hfa := hfact.2.1 rfl
      have hold_old : holdB (o, SemInstr.release :: rest) = 1 := by
        simp [holdB, hfa.1]
      have hold_new : holdB (o, rest) = 0 := by
        have hx : holding rest = false := by simpa using hfa.2
        simp [holdB, hx]
      have happB_eq : appB (o, rest) = appB (o, SemInstr.release :: rest) := by
        have h5 := hfact.2.2.2.2 (by simp) (by simp)
        simp at h5
        simp [appB, h5]
      constructor
      · exact hwf'
      · exact hfst'
      · show s.sem + 1 + holders (s.threads.set t (o, rest)) = K
        have hsi := h.sem_inv
        rw [hold_old, hold_new] at hholdsum
        unfold holders at *
        omega
      · show s.validIps.length = appCount (s.threads.set t (o, rest))
        have hic := h.ips_count
        rw [happB_eq] at happsum
        unfold appCount at *
        omega
      · intro t' ht'
        exact h.admitted_ok t' ht'
      · intro t' ht'
        exact h.ips_ok t' ht'
    | appendIp =>
      have hstep : execInstr s t o .appendIp rest =
          { s with validIps := s.validIps ++ [t],
                   threads := s.threads.set t (o, rest) } := by
        simp [execInstr]
      rw [hstep]
      have hfa := hfact.2.2.2.1 rfl
      have hhold_eq : holding rest = holding (SemInstr.appendIp :: rest) := by
        have h3 := hfact.2.2.1 (by simp) (by simp) (by simp)
        simpa using h3
      have hholdB_eq : holdB (o, rest) = holdB (o, SemInstr.appendIp :: rest) := by
        simp [holdB, hhold_eq]
      have hcontains : (get_address_info o).contains SemInstr.appendIp = true := by
        exact List.elem_iff.mpr (hsuf.subset (List.mem_cons_self _ _))
      have happ_old : appB (o, SemInstr.appendIp :: rest) = 0 := by
        simp [appB]
      have happ_new : appB (o, rest) = 1 := by
        have h4 : rest.contains SemInstr.appendIp = false := by simpa using hfa.2
        show (if (get_address_info o).contains SemInstr.appendIp
            && !(rest.contains SemInstr.appendIp) then 1 else 0) = 1
        rw [hcontains, h4]
        rfl
      constructor
      · exact hwf'
      · exact hfst'
      · show s.sem + holders (s.threads.set t (o, rest)) = K
        have hsi := h.sem_inv
        rw [hholdB_eq] at hholdsum
        unfold holders at *
        omega
      · show (s.validIps ++ [t]).length = appCount (s.threads.set t (o, rest))
        have hic := h.ips_count
        rw [happ_old, happ_new] at happsum
        rw [List.length_append]
        unfold appCount at *
        simp
        omega
      · intro t' ht'
        exact h.admitted_ok t' ht'
      · intro t' ht'
        rcases List.mem_append.mp ht' with h1 | h2
        · exact h.ips_ok t' h1
        · have : t' = t := List.mem_singleton.mp h2
          rw [this]
          exact ⟨o, houts, hsuf.subset (List.mem_cons_self _ _)⟩

theorem semInv_run (K : Nat) (outs : List LookupOutcome) (sched : List Nat) :
    SemInv K outs (semRun K outs sched) := by
unfold semRun
have hgen : ∀ (sch : List Nat) (s : SemState), SemInv K outs s →
    SemInv K outs (sch.foldl semStep s) := by
  intro sch
  induction sch with
  | nil => intro s hs; exact hs
  | cons t rest ih =>
    intro s hs
    exact ih _ (semInv_step K outs s t hs)
exact hgen sched _ (semInv_init K outs)

end SemDemo

namespace SemDemo

theorem appCount_of_complete :
    ∀ (l : List (LookupOutcome × List SemInstr)), (∀ th ∈ l, th.2 = []) →
      appCount l
        = (l.map Prod.fst).countP (fun o => (get_address_info o).contains SemInstr.appendIp) := by
intro l
induction l with
| nil => intro; rfl
| cons th rest ih =>
  intro hc
  have hth : th.2 = [] := hc th (List.mem_cons_self th rest)
  have hrest := ih (fun a ha => hc a (List.mem_cons_of_mem th ha))
  have happ : appB th = if (get_address_info th.1).contains SemInstr.appendIp then 1 else 0 := by
    unfold appB
    rw [hth]
    simp
  show appB th + appCount rest = _
  rw [List.map_cons, List.countP_cons, hrest, happ]
  exact Nat.add_comm _ _

theorem countP_appendIp_eq_succeeded (outs : List LookupOutcome) :
    outs.countP (fun o => (get_address_info o).contains SemInstr.appendIp)
      = outs.countP (fun o => semReport o == SemReport.succeeded) := by
apply List.countP_congr
intro a _
cases a <;> decide

end SemDemo

namespace PoolDemo

/-! ### Invariant machinery of the worker-pool demo -/

theorem poolStep_assign_nil (K : Nat) (f : Nat → TaskResult) (s : PoolState)
    (hq : s.queue = []) : poolStep K f s .assign = s := by
unfold poolStep
rw [hq]

theorem poolStep_assign_cons (K : Nat) (f : Nat → TaskResult) (s : PoolState)
    (i : Nat) (rest : List Nat) (hq : s.queue = i :: rest) :
    poolStep K f s .assign =
      if s.running.length < K then
        { s with queue := rest, running := s.running ++ [i],
                 admitted := s.admitted ++ [i] }
      else s := by
unfold poolStep
rw [hq]

theorem poolStep_finish (K : Nat) (f : Nat → TaskResult) (s : PoolState) (i : Nat) :
    poolStep K f s (.finish i) =
      if i ∈ s.running then
        { s with running := s.running.erase i, results := s.results ++ [(i, f i)] }
      else s := rfl

theorem poolInv_init (K : Nat) (f : Nat → TaskResult) (N : Nat) :
    PoolInv K f N (poolInit N) := by
constructor
· simp [poolInit]
· simp [poolInit]
· simp [poolInit]
· intro p hp
  simp [poolInit] at hp

theorem poolInv_step (K : Nat) (f : Nat → TaskResult) (N : Nat) (s : PoolState)
    (c : PoolCmd) (h : PoolInv K f N s) : PoolInv K f N (poolStep K f s c) := by
cases c with
| assign =>
  cases hq : s.queue with
  | nil =>
    rw [poolStep_assign_nil K f s hq]
    exact h
  | cons i rest =>
    rw [poolStep_assign_cons K f s i rest hq]
    by_cases hlen : s.running.length < K
    · rw [if_pos hlen]
      have hperm := h.perm
      rw [hq] at hperm
      have hperm2 : List.Perm (i :: (rest ++ (s.running ++ s.results.map Prod.fst)))
          (List.range N) := by
        simpa using hperm
      constructor
      · show List.Perm (rest ++ (s.running ++ [i]) ++ s.results.map Prod.fst) (List.range N)
        have e1 : rest ++ (s.running ++ [i]) ++ s.results.map Prod.fst
            = (rest ++ s.running) ++ (i :: s.results.map Prod.fst) := by simp
        rw [e1]
        refine List.Perm.trans ?_ hperm2
        have e2 : i :: (rest ++ (s.running ++ s.results.map Prod.fst))
            = i :: ((rest ++ s.running) ++ s.results.map Prod.fst) := by simp
        rw [e2]
        exact List.perm_middle
      · show (s.admitted ++ [i]) ++ rest = List.range N
        have hfifo := h.fifo
        rw [hq] at hfifo
        simpa using hfifo
      · show (s.running ++ [i]).length ≤ K
        rw [List.length_append]
        simp
        omega
      · intro p hp
        exact h.results_ok p hp
    · rw [if_neg hlen]
      exact h
| finish i =>
  rw [poolStep_finish K f s i]
  by_cases hmem : i ∈ s.running
  · rw [if_pos hmem]
    have hr := List.perm_cons_erase hmem
    constructor
    · show List.Perm (s.queue ++ s.running.erase i ++ (s.results ++ [(i, f i)]).map Prod.fst)
          (List.range N)
      have emap : (s.results ++ [(i, f i)]).map Prod.fst = s.results.map Prod.fst ++ [i] := by
        simp
      rw [emap]
      have inner : List.Perm ((s.running.erase i) ++ (s.results.map Prod.fst ++ [i]))
          (s.running ++ s.results.map Prod.fst) := by
        have s1 : List.Perm ((s.running.erase i) ++ (s.results.map Prod.fst ++ [i]))
            ((s.running.erase i) ++ (i :: s.results.map Prod.fst)) :=
          List.Perm.append_left _ List.perm_append_comm
        have s2 : List.Perm ((s.running.erase i) ++ (i :: s.results.map Prod.fst))
            (i :: ((s.running.erase i) ++ s.results.map Prod.fst)) := List.perm_middle
        have s3 : List.Perm (i :: ((s.running.erase i) ++ s.results.map Prod.fst))
            (s.running ++ s.results.map Prod.fst) := by
          have hx := hr.append_right (s.results.map Prod.fst)
          exact hx.symm
        exact (s1.trans s2).trans s3
      have e1 : s.queue ++ s.running.erase i ++ (s.results.map Prod.fst ++ [i])
          = s.queue ++ ((s.running.erase i) ++ (s.results.map Prod.fst ++ [i])) := by
        simp
      rw [e1]
      refine List.Perm.trans (inner.append_left s.queue) ?_
      have e2 : s.queue ++ (s.running ++ s.results.map Prod.fst)
          = s.queue ++ s.running ++ s.results.map Prod.fst :=
        (List.append_assoc _ _ _).symm
      rw [e2]
      exact h.perm
    · exact h.fifo
    · show (s.running.erase i).length ≤ K
      have he := List.length_erase_of_mem hmem
      have hb := h.bound
      omega
    · intro p hp
      rcases List.mem_append.mp hp with h1 | h2
      · exact h.results_ok p h1
      · have : p = (i, f i) := List.mem_singleton.mp h2
        rw [this]
  · rw [if_neg hmem]
    exact h

theorem poolInv_run (K : Nat) (f : Nat → TaskResult) (N : Nat) (sched : List PoolCmd) :
    PoolInv K f N (poolRun K f N sched) := by
unfold poolRun
have hgen : ∀ (sch : List PoolCmd) (s : PoolState), PoolInv K f N s →
    PoolInv K f N (sch.foldl (poolStep K f) s) := by
  intro sch
  induction sch with
  | nil => intro s hs; exact hs
  | cons c rest ih =>
    intro s hs
    exact ih _ (poolInv_step K f N s c hs)
exact hgen sched _ (poolInv_init K f N)

end PoolDemo

/-! ### FIFO admission helper -/

theorem append_eq_range'_imp :
    ∀ (a q : List Nat) (st n : Nat), a ++ q = List.range' st n →
      a = List.range' st a.length := by
intro a
induction a with
| nil => intro q st n _; rfl
| cons x a' ih =>
  intro q st n h
  cases n with
  | zero => simp [List.range'] at h
  | succ m =>
    rw [List.range'_succ st m 1] at h
    have hx : x = st := by
      have := congrArg List.head? h
      simpa using this
    have hrest : a' ++ q = List.range' (st + 1) m := by
      have := congrArg List.tail h
      simpa using this
    have hih := ih q (st + 1) m hrest
    show x :: a' = List.range' st (a'.length + 1)
    rw [List.range'_succ st a'.length 1, hx, ← hih]

theorem fifo_of_append_range (a q : List Nat) (N : Nat) (h : a ++ q = List.range N) :
    fifoAdmission a := by
unfold fifoAdmission
have h' : a ++ q = List.range' 0 N := by
  rw [← List.range_eq_range']
  exact h
have ha := append_eq_range'_imp a q 0 N h'
rw [List.range_eq_range']
exact ha

/-! ### Helpers for the async pdf loop -/

theorem download_pdfs_loop_fst (outs : List AsyncDemo.PdfOutcome) :
    ∀ n, (AsyncDemo.download_pdfs_loop n outs).1.map Prod.fst
      = List.range' n (AsyncDemo.attemptedCount outs) := by
induction outs with
| nil => intro n; rfl
| cons o rest ih =>
  intro n
  by_cases ho : o = AsyncDemo.PdfOutcome.raises
  · rw [ho]
    simp [AsyncDemo.download_pdfs_loop, AsyncDemo.attemptedCount, List.range']
  · have hstep : AsyncDemo.download_pdfs_loop n (o :: rest)
        = ((n, o) :: (AsyncDemo.download_pdfs_loop (n + 1) rest).1,
           (AsyncDemo.download_pdfs_loop (n + 1) rest).2) := by
      simp [AsyncDemo.download_pdfs_loop, ho]
    rw [hstep]
    have hcount : AsyncDemo.attemptedCount (o :: rest)
        = AsyncDemo.attemptedCount rest + 1 := by
      simp [AsyncDemo.attemptedCount, ho]
      omega
    rw [hcount]
    show ((n, o) :: (AsyncDemo.download_pdfs_loop (n + 1) rest).1).map Prod.fst = _
    rw [List.map_cons, ih (n + 1), List.range'_succ n (AsyncDemo.attemptedCount rest) 1]

theorem download_pdfs_loop_snd (outs : List AsyncDemo.PdfOutcome) :
    ∀ n, (AsyncDemo.download_pdfs_loop n outs).2
      = outs.contains AsyncDemo.PdfOutcome.raises := by
induction outs with
| nil => intro n; rfl
| cons o rest ih =>
  intro n
  by_cases ho : o = AsyncDemo.PdfOutcome.raises
  · rw [ho]
    simp [AsyncDemo.download_pdfs_loop]
  · simp [AsyncDemo.download_pdfs_loop, ho, ih (n + 1)]
    intro hcontra
    exact absurd hcontra.symm ho

/-! ### The claims -/

/-- Claim C1: for every concurrency limit K at least 1, in every possible
interleaving of the semaphore demo at most K threads hold a permit at any
instant, and in every possible pool run at most K items are running at any
instant (the lower bound 0 holds by the Nat type); the demo instantiations
use limit 4 (Semaphore(4)) and 3 (Pool(3)). -/
theorem claim_C1 (K : Nat) (hK : 1 ≤ K) :
    (∀ (outs : List SemDemo.LookupOutcome) (sched : List Nat),
        SemDemo.holders (SemDemo.semRun K outs sched).threads ≤ K) ∧
    (∀ (f : Nat → TaskResult) (N : Nat) (sched : List PoolDemo.PoolCmd),
        (PoolDemo.poolRun K f N sched).running.length ≤ K) ∧
    SemDemo.semaphoreDemoLimit = 4 ∧ PoolDemo.workerPoolDemoLimit = 3 := by
refine ⟨?_, ?_, rfl, rfl⟩
· intro outs sched
  have hinv := SemDemo.semInv_run K outs sched
  have hsi := hinv.sem_inv
  unfold SemDemo.holders at *
  omega
· intro f N sched
  exact (PoolDemo.poolInv_run K f N sched).bound

/-- Witness for C1 at the semaphore demo limit K = 4. -/
theorem claim_C1_witness :
    1 ≤ 4 ∧
    SemDemo.holders (SemDemo.semRun 4 [SemDemo.LookupOutcome.ok] [0, 0]).threads ≤ 4 :=
⟨by decide, (claim_C1 4 (by decide)).1 [SemDemo.LookupOutcome.ok] [0, 0]⟩

/-- Claim C2: for every pool run that completes all N items, exactly N
results are produced and the result re-assembled at index i is the task
output for the i-th submitted item, whatever the completion order the
schedule chose. -/
theorem claim_C2 (K : Nat) (f : Nat → TaskResult) (N : Nat) (sched : List PoolDemo.PoolCmd)
    (hc : PoolDemo.poolComplete (PoolDemo.poolRun K f N sched)) :
    (PoolDemo.poolRun K f N sched).results.length = N ∧
    ∀ i, i < N → PoolDemo.resultFor (PoolDemo.poolRun K f N sched) i = some (f i) := by
obtain ⟨hq, hr⟩ := hc
have hinv := PoolDemo.poolInv_run K f N sched
have hperm := hinv.perm
rw [hq, hr] at hperm
simp only [List.nil_append] at hperm
constructor
· have hlen := hperm.length_eq
  simpa using hlen
· intro i hi
  have himem : i ∈ (PoolDemo.poolRun K f N sched).results.map Prod.fst :=
    hperm.mem_iff.mpr (List.mem_range.mpr hi)
  obtain ⟨p, hp, hpi⟩ := List.mem_map.mp himem
  cases hfind : (PoolDemo.poolRun K f N sched).results.find? (fun q => q.1 == i) with
  | none =>
    exfalso
    have hnone := List.find?_eq_none.mp hfind p hp
    apply hnone
    simp [hpi]
  | some a =>
    have ha1 := List.find?_some hfind
    have ha1' : a.1 = i := by simpa using ha1
    have hamem : a ∈ (PoolDemo.poolRun K f N sched).results :=
      List.mem_of_find?_eq_some hfind
    have ha2 : a.2 = f a.1 := hinv.results_ok a hamem
    unfold PoolDemo.resultFor
    rw [hfind]
    simp [ha2, ha1']

/-- Witness for C2: a complete two-item run on a K = 1 pool. -/
theorem claim_C2_witness :
    PoolDemo.poolComplete (PoolDemo.poolRun 1 demoTask 2 poolSchedA) ∧
    0 < 2 ∧
    PoolDemo.resultFor (PoolDemo.poolRun 1 demoTask 2 poolSchedA) 0 = some (demoTask 0) :=
⟨by decide, by decide, (claim_C2 1 demoTask 2 poolSchedA (by decide)).2 0 (by decide)⟩

/-- Claim C3 as amended: in the process demo every item is executed and
its failures are converted to a (False, 0) result for that item only,
each result depending only on its own outcome; in the async pdf demo the
loop attempts exactly the items up to and including the first raising one
(so a raise does prevent the later items from executing) while the raised
error is always caught by the wrapping handler and never escapes
download_pdfs. -/
theorem claim_C3 :
    (∀ (outs : List ParDemo.ParOutcome),
        (ParDemo.run_parallel_taks outs).length = outs.length ∧
        ∀ (i : Nat), (ParDemo.run_parallel_taks outs)[i]? = (outs[i]?).map ParDemo.task) ∧
    (∀ (outs : List AsyncDemo.PdfOutcome),
        (AsyncDemo.download_pdfs outs).1.map Prod.fst
          = List.range (AsyncDemo.attemptedCount outs) ∧
        (AsyncDemo.download_pdfs outs).2 = outs.contains AsyncDemo.PdfOutcome.raises) := by
constructor
· intro outs
  constructor
  · simp [ParDemo.run_parallel_taks]
  · intro i
    simp [ParDemo.run_parallel_taks, List.getElem?_map]
· intro outs
  constructor
  · unfold AsyncDemo.download_pdfs
    rw [download_pdfs_loop_fst outs 0, List.range_eq_range']
  · exact download_pdfs_loop_snd outs 0

/-- Counterexample for C3 as stated: in the async pdf demo with a first
url that raises and a second good url, only item 0 is ever attempted;
item 1 is not executed and produces no result, even though the exception
was caught. -/
theorem claim_C3_counterexample :
    (AsyncDemo.download_pdfs
        [AsyncDemo.PdfOutcome.raises, AsyncDemo.PdfOutcome.pdfOk]).1.map Prod.fst = [0] ∧
    ¬ (1 ∈ (AsyncDemo.download_pdfs
        [AsyncDemo.PdfOutcome.raises, AsyncDemo.PdfOutcome.pdfOk]).1.map Prod.fst) ∧
    (AsyncDemo.download_pdfs
        [AsyncDemo.PdfOutcome.raises, AsyncDemo.PdfOutcome.pdfOk]).2 = true := by
decide

/-- Claim C4 as amended: in the worker-pool model admission is FIFO at
every instant of every schedule: the admitted indices are exactly the
first items in submission order.  (In the semaphore demo, by contrast,
admission order is unconstrained; see the counterexample.) -/
theorem claim_C4 (K : Nat) (f : Nat → TaskResult) (N : Nat) (sched : List PoolDemo.PoolCmd) :
    fifoAdmission (PoolDemo.poolRun K f N sched).admitted :=
fifo_of_append_range _ _ N (PoolDemo.poolInv_run K f N sched).fifo

/-- Counterexample for C4 as stated: in the semaphore demo the
interleaving in which thread 1 reaches and takes the semaphore first is
possible, and then item 1 is admitted before item 0. -/
theorem claim_C4_counterexample :
    (SemDemo.semRun 4 [SemDemo.LookupOutcome.ok, SemDemo.LookupOutcome.ok] [1, 1]).admitted
      = [1] ∧
    ¬ fifoAdmission
        (SemDemo.semRun 4 [SemDemo.LookupOutcome.ok, SemDemo.LookupOutcome.ok] [1, 1]).admitted := by
decide

/-- Claim C5: under the demo guard of size 4, a thread about to append to
the shared list always holds one of the 4 permits (in every interleaving,
at every instant), and once every thread has finished the shared-list
length equals exactly the number of succeeded items: no lost updates and
no duplicate appends; the demo instance uses 20 items and guard size 4. -/
theorem claim_C5 (outs : List SemDemo.LookupOutcome) (sched : List Nat)
    (hc : SemDemo.semComplete (SemDemo.semRun 4 outs sched)) :
    (∀ (sched2 : List Nat) (t : Nat) (o : SemDemo.LookupOutcome)
        (rest : List SemDemo.SemInstr),
        (SemDemo.semRun 4 outs sched2).threads[t]?
            = some (o, SemDemo.SemInstr.appendIp :: rest) →
        SemDemo.holding (SemDemo.SemInstr.appendIp :: rest) = true) ∧
    (SemDemo.semRun 4 outs sched).validIps.length
      = outs.countP (fun o => SemDemo.semReport o == SemDemo.SemReport.succeeded) ∧
    SemDemo.semaphoreDemoLimit = 4 ∧ SemDemo.semaphoreDemoItemCount = 20 := by
refine ⟨?_, ?_, rfl, rfl⟩
· intro sched2 t o rest hth
  have hinv := SemDemo.semInv_run 4 outs sched2
  have hmem := List.getElem?_mem hth
  have hsuf := hinv.wf _ hmem
  have hfact := SemDemo.suffixFact_of_suffix o _ hsuf
  exact (hfact.2.2.2.1 rfl).1
· have hinv := SemDemo.semInv_run 4 outs sched
  have hic := hinv.ips_count
  rw [hic, SemDemo.appCount_of_complete _ hc, hinv.fst_eq,
      SemDemo.countP_appendIp_eq_succeeded]

/-- Witness for C5: a complete three-thread run with one ok, one None and
one raising lookup ends with exactly one appended entry. -/
theorem claim_C5_witness :
    SemDemo.semComplete (SemDemo.semRun 4 semOutsA semSchedA) ∧
    (SemDemo.semRun 4 semOutsA semSchedA).validIps.length
      = semOutsA.countP (fun o => SemDemo.semReport o == SemDemo.SemReport.succeeded) :=
⟨by decide, (claim_C5 semOutsA semSchedA (by decide)).2.1⟩

/-- Claim C6 (spec-modelled construction): constructing the pool with
K at most 0 fails with ConfigurationError before any task state exists,
this is the only error the checked run surface can return, and for
positive K construction succeeds and the run proceeds normally. -/
theorem claim_C6 (K : Int) (f : Nat → TaskResult) (N : Nat)
    (sched : List PoolDemo.PoolCmd) :
    (K ≤ 0 → BoundedWorkPool.runChecked K f N sched
        = Except.error PoolError.configurationError) ∧
    (0 < K → BoundedWorkPool.runChecked K f N sched
        = Except.ok (PoolDemo.poolRun K.toNat f N sched)) := by
constructor
· intro hK
  unfold BoundedWorkPool.runChecked BoundedWorkPool.new
  rw [if_pos hK]
· intro hK
  unfold BoundedWorkPool.runChecked BoundedWorkPool.new
  rw [if_neg (by omega)]

/-- Witness for C6 at K = -1 (rejected) and K = 3 (accepted). -/
theorem claim_C6_witness :
    ((-1 : Int) ≤ 0 ∧
      BoundedWorkPool.runChecked (-1) demoTask 2 []
        = Except.error PoolError.configurationError) ∧
    (0 < (3 : Int) ∧
      BoundedWorkPool.runChecked 3 demoTask 2 []
        = Except.ok (PoolDemo.poolRun 3 demoTask 2 [])) :=
⟨⟨by decide, (claim_C6 (-1) demoTask 2 []).1 (by decide)⟩,
 ⟨by decide, (claim_C6 3 demoTask 2 []).2 (by decide)⟩⟩

/-- Claim C7: in every pool run that completes, every item was admitted
exactly once (the admission record is exactly the submission order) and
exactly one result exists per item: the finished indices are a
duplicate-free permutation of the N submitted ones. -/
theorem claim_C7 (K : Nat) (f : Nat → TaskResult) (N : Nat) (sched : List PoolDemo.PoolCmd)
    (hc : PoolDemo.poolComplete (PoolDemo.poolRun K f N sched)) :
    (PoolDemo.poolRun K f N sched).admitted = List.range N ∧
    List.Perm ((PoolDemo.poolRun K f N sched).results.map Prod.fst) (List.range N) ∧
    ((PoolDemo.poolRun K f N sched).results.map Prod.fst).Nodup ∧
    (PoolDemo.poolRun K f N sched).results.length = N := by
obtain ⟨hq, hr⟩ := hc
have hinv := PoolDemo.poolInv_run K f N sched
have hperm := hinv.perm
rw [hq, hr] at hperm
simp only [List.nil_append] at hperm
have hfifo := hinv.fifo
rw [hq] at hfifo
simp only [List.append_nil] at hfifo
refine ⟨hfifo, hperm, hperm.nodup_iff.mpr (List.nodup_range N), ?_⟩
have hlen := hperm.length_eq
simpa using hlen

/-- Witness for C7: a complete single-item run on a K = 2 pool. -/
theorem claim_C7_witness :
    PoolDemo.poolComplete (PoolDemo.poolRun 2 demoTask 1 poolSchedB) ∧
    (PoolDemo.poolRun 2 demoTask 1 poolSchedB).admitted = List.range 1 :=
⟨by decide, (claim_C7 2 demoTask 1 poolSchedB (by decide)).1⟩

/-- Claim C8 evaluated on the model of main.py: the driver runs the five
demos in exactly the order async, concurrency, parallelism, semaphore,
workerpool, but its event trace contains no sleep at all: wait_for only
prints its countdown (time.sleep is imported and never called), so no
inter-demo delay actually elapses. -/
theorem claim_C8 :
    MainDemo.main.filterMap MainDemo.demoOf =
      [MainDemo.Demo.async, MainDemo.Demo.concurrency, MainDemo.Demo.parallelism,
       MainDemo.Demo.semaphore, MainDemo.Demo.workerpool] ∧
    MainDemo.main.filter MainDemo.isSleep = [] ∧
    (MainDemo.wait_for 5).filter MainDemo.isSleep = [] :=
⟨rfl, rfl, rfl⟩

/-- Claim C9 as amended: the guarded region of get_address_info consists
of the acquiring-log print, the shared-list append and the fixed sleep
(not just the append and the sleep), and the releasing-log runs only
after the release: the per-item order is lookup, acquire, acquire-log,
append, sleep, release, release-log. -/
theorem claim_C9 :
    SemDemo.guardedRegion
      = [SemDemo.SemInstr.logAcquire, SemDemo.SemInstr.appendIp, SemDemo.SemInstr.sleep] ∧
    SemDemo.get_address_info SemDemo.LookupOutcome.ok
      = [SemDemo.SemInstr.lookup, SemDemo.SemInstr.acquire, SemDemo.SemInstr.logAcquire,
         SemDemo.SemInstr.appendIp, SemDemo.SemInstr.sleep, SemDemo.SemInstr.release,
         SemDemo.SemInstr.logRelease] :=
⟨rfl, rfl⟩

/-- Counterexample for C9 as stated: the guarded critical section is not
exactly the append plus the sleep, because the acquiring-log print also
executes inside the with-block. -/
theorem claim_C9_counterexample :
    SemDemo.guardedRegion ≠ [SemDemo.SemInstr.appendIp, SemDemo.SemInstr.sleep] := by
decide

/-- Claim C10: a thread whose whois lookup returns None runs only the
lookup and returns: in every interleaving it never takes a permit, never
appends to the shared list, and its program reports neither a success nor
a failure. -/
theorem claim_C10 (K : Nat) (outs : List SemDemo.LookupOutcome) (sched : List Nat) (t : Nat)
    (h : outs[t]? = some SemDemo.LookupOutcome.nores) :
    SemDemo.get_address_info SemDemo.LookupOutcome.nores = [SemDemo.SemInstr.lookup] ∧
    t ∉ (SemDemo.semRun K outs sched).admitted ∧
    t ∉ (SemDemo.semRun K outs sched).validIps := by
refine ⟨rfl, ?_, ?_⟩
· intro hmem
  obtain ⟨o, ho, hacq⟩ := (SemDemo.semInv_run K outs sched).admitted_ok t hmem
  rw [h] at ho
  injection ho with ho'
  rw [← ho'] at hacq
  exact absurd hacq (by decide)
· intro hmem
  obtain ⟨o, ho, happ⟩ := (SemDemo.semInv_run K outs sched).ips_ok t hmem
  rw [h] at ho
  injection ho with ho'
  rw [← ho'] at happ
  exact absurd happ (by decide)

/-- Witness for C10 on a one-thread run whose lookup returns None. -/
theorem claim_C10_witness :
    ([SemDemo.LookupOutcome.nores][0]? = some SemDemo.LookupOutcome.nores) ∧
    0 ∉ (SemDemo.semRun 4 [SemDemo.LookupOutcome.nores] [0, 0, 0]).admitted :=
⟨by decide, (claim_C10 4 [SemDemo.LookupOutcome.nores] [0, 0, 0] 0 (by decide)).2.1⟩
